import Mathlib

/-!
Verification of the opsql execution/validation engine.

The definitions below are a shallow embedding of the Go sources of the
repository pyama86/opsql, in particular

  * internal/executor/base.go        (BaseExecutor: executeOperation,
                                      executeSelect, executeDML,
                                      validateSelectResult, validateDMLResult)
  * internal/executor/compare.go     (compareValues)
  * internal/executor/apply.go       (ApplyExecutor.Execute)
  * internal/executor/plan.go        (PlanExecutor.Execute)
  * internal/definition/definition.go and parser.go
                                     (Operation, Report, Definition,
                                      AllowedTypes, DetectSQLType, Validate)

Driver values (`interface\x7b\x7d` cells of a row map) are modelled by an
inductive `Value`; the database is modelled by an `Oracle` that answers the
port calls the executors make (BeginTransaction, QueryRowsContext,
ExecContext, Commit), and each run additionally produces a trace of port
`Event`s so that transactional properties (what was begun, queried,
executed, rolled back, committed, and in what order) can be stated.
-/

namespace Opsql

/-- A driver-native scalar value as it is carried in a Go `interface` cell
of a result row (`map[string]interfaceValue`).  The constructors mirror the
host representations reaching the comparator: SQL NULL (Go `nil`), 64-bit
integers, strings, byte slices, and booleans. -/
inductive Value where
  | vnull : Value
  | vint : Int → Value
  | vstr : String → Value
  | vbytes : List Nat → Value
  | vbool : Bool → Value
deriving DecidableEq, Repr, Inhabited

/-- Tag of the dynamic (reflect) type of a value: two values have equal tags
exactly when their Go dynamic types coincide (`reflect.ValueOf(x).Type()`). -/
def Value.kindTag : Value → Nat
  | .vnull => 0
  | .vint _ => 1
  | .vstr _ => 2
  | .vbytes _ => 3
  | .vbool _ => 4

/-- Go `fmt` default-verb rendering of a byte slice: a bracketed,
space-separated list of decimal byte values (`fmt.Sprintf` with verb v of
`[]byte\x7b49\x7d` is the string `[49]`, not the text the bytes spell). -/
def renderBytes (bs : List Nat) : String :=
  "[" ++ String.intercalate " " (bs.map toString) ++ "]"

/-- Go `fmt` default-verb rendering of a driver value (`fmt.Sprintf` with
verb v), as used by `compareValues` and the mismatch messages. -/
def render : Value → String
  | .vnull => "<nil>"
  | .vint n => toString n
  | .vstr s => s
  | .vbytes bs => renderBytes bs
  | .vbool b => if b then "true" else "false"

/-- `compareValues` from internal/executor/compare.go:
both `nil` → true; exactly one `nil` → false; same dynamic type →
`reflect.DeepEqual` (structural equality); different dynamic types →
compare the `fmt` default renderings of the two sides as strings. -/
def compareValues (actual expected : Value) : Bool :=
  match actual, expected with
  | .vnull, .vnull => true
  | .vnull, _ => false
  | _, .vnull => false
  | a, e =>
    if a.kindTag = e.kindTag then a == e
    else render a == render e

/-- One result row: a mapping from column name to driver value
(Go `map[string]interfaceValue`; keys are distinct, so an association
list with first-match lookup is a faithful rendering). -/
abbrev Row := List (String × Value)

/-- Go map lookup on a row (`actualRow[key]`), first match. -/
def lookupRow (row : Row) (key : String) : Option Value :=
  match row with
  | [] => none
  | (k, v) :: rest => if k = key then some v else lookupRow rest key

/-- Message of base.go: "row count mismatch: expected %d, got %d". -/
def rowCountMsg (expectedLen actualLen : Nat) : String :=
  "row count mismatch: expected " ++ toString expectedLen ++ ", got " ++ toString actualLen

/-- Message of base.go: "missing row at index %d". -/
def missingRowMsg (i : Nat) : String :=
  "missing row at index " ++ toString i

/-- Message of base.go: "missing column <key> in row %d" (the column name is
quoted with apostrophes in the source). -/
def missingColMsg (key : String) (i : Nat) : String :=
  "missing column \x27" ++ key ++ "\x27 in row " ++ toString i

/-- Message of base.go: "value mismatch in row %d, column <key>: expected %v,
got %v". -/
def valueMismatchMsg (i : Nat) (key : String) (expected actual : Value) : String :=
  "value mismatch in row " ++ toString i ++ ", column \x27" ++ key ++
    "\x27: expected " ++ render expected ++ ", got " ++ render actual

/-- Inner loop of `validateSelectResult`: walk the declared columns of one
expected row, and return the first failure message (missing column or
comparator mismatch), or `none` when every declared column matches.  The
early `return` of the Go loop is the first-failure recursion. -/
def rowFailure (i : Nat) (actualRow : Row) : Row → Option String
  | [] => none
  | (key, expectedValue) :: rest =>
    match lookupRow actualRow key with
    | none => some (missingColMsg key i)
    | some actualValue =>
      if compareValues actualValue expectedValue then rowFailure i actualRow rest
      else some (valueMismatchMsg i key expectedValue actualValue)

/-- Outer loop of `validateSelectResult`: walk expected rows by position
(`for i, expectedRow := range expected`), indexing the actual rows with the
same index, and return the first failure message.  The `i >= len(actual)`
branch of the source (dead once the lengths are equal) is kept. -/
def rowsFailure (actual : List Row) : Nat → List Row → Option String
  | _, [] => none
  | i, expectedRow :: rest =>
    match actual.get? i with
    | none => some (missingRowMsg i)
    | some actualRow =>
      match rowFailure i actualRow expectedRow with
      | some m => some m
      | none => rowsFailure actual (i + 1) rest

/-- `BaseExecutor.validateSelectResult` from base.go: row-count check, then
positional walk over expected rows, checking only the declared columns of
each expected row. -/
def validateSelectResult (actual expected : List Row) : Bool × String :=
  if actual.length ≠ expected.length then
    (false, rowCountMsg expected.length actual.length)
  else
    match rowsFailure actual 0 expected with
    | some m => (false, m)
    | none => (true, "assertion passed")

/-- The `expected_changes` mapping of an operation
(Go `map[string]int`, association list with first-match lookup). -/
def lookupChanges (expected : List (String × Int)) (key : String) : Option Int :=
  match expected with
  | [] => none
  | (k, v) :: rest => if k = key then some v else lookupChanges rest key

/-- Message of base.go: "no expected count specified for operation type
<type>" (the type is quoted with apostrophes in the source). -/
def noExpectedCountMsg (opType : String) : String :=
  "no expected count specified for operation type \x27" ++ opType ++ "\x27"

/-- Message of base.go: "affected rows mismatch: expected %d, got %d". -/
def affectedMismatchMsg (expectedCount actual : Int) : String :=
  "affected rows mismatch: expected " ++ toString expectedCount ++ ", got " ++ toString actual

/-- `BaseExecutor.validateDMLResult` from base.go. -/
def validateDMLResult (actual : Int) (expected : List (String × Int)) (opType : String) :
    Bool × String :=
  match lookupChanges expected opType with
  | none => (false, noExpectedCountMsg opType)
  | some expectedCount =>
    if actual ≠ expectedCount then (false, affectedMismatchMsg expectedCount actual)
    else (true, "assertion passed")

/-- Operation type constant "select" (internal/definition). -/
def TypeSelect : String := "select"

/-- Operation type constant "insert". -/
def TypeInsert : String := "insert"

/-- Operation type constant "update". -/
def TypeUpdate : String := "update"

/-- Operation type constant "delete". -/
def TypeDelete : String := "delete"

/-- `AllowedTypes` from internal/definition. -/
def AllowedTypes : List String := [TypeSelect, TypeInsert, TypeUpdate, TypeDelete]

/-- One step to execute (`definition.Operation`).  Template expansion has
already happened upstream, so `sql` is the final statement text. -/
structure Operation where
  id : String
  description : String
  type : String
  sql : String
  expected : List Row
  expectedChanges : List (String × Int)
deriving DecidableEq, Repr, Inhabited

/-- The `Result` field of a Report: observed rows for a select, observed
affected-row count for DML, or Go `nil` when execution failed. -/
inductive ResultVal where
  | rnull : ResultVal
  | rrows : List Row → ResultVal
  | rcount : Int → ResultVal
deriving DecidableEq, Repr, Inhabited

/-- Outcome of executing one Operation (`definition.Report`). -/
structure Report where
  id : String
  description : String
  type : String
  result : ResultVal
  pass : Bool
  message : String
deriving DecidableEq, Repr, Inhabited

/-- A definition run (`definition.Definition`); params/templating are
upstream concerns and are not part of the executor contract. -/
structure Definition where
  version : Int
  operations : List Operation
deriving DecidableEq, Repr, Inhabited

/-- The database answering the port calls of one run.  Query and exec
responses are keyed by the number of port calls made so far, so the
model database may answer depending on the full history of the run. -/
structure Oracle where
  beginRes : Option String
  query : Nat → String → Except String (List Row)
  exec : Nat → String → Except String Int
  commitRes : Option String

/-- One entry of the observable port-call trace of a run.  `queryDb` is a
query on the root connection (outside any transaction): the interface
offers it, and the trace records which of the two entry points each call
used, so the single-transaction property is a real statement. -/
inductive Event where
  | beginTx : Bool → Event
  | queryTx : String → Event
  | execTx : String → Event
  | queryDb : String → Event
  | rollbackTx : Event
  | commitTx : Bool → Event
deriving DecidableEq, Repr

/-- Report built by `executeSelect` when `tx.QueryRowsContext` fails:
pass false, nil result, "query failed: %v". -/
def queryFailReport (op : Operation) (msg : String) : Report :=
  { id := op.id, description := op.description, type := op.type,
    result := .rnull, pass := false, message := "query failed: " ++ msg }

/-- Report built by `executeDML` when `tx.ExecContext` fails:
pass false, nil result, "execution failed: %v". -/
def execFailReport (op : Operation) (msg : String) : Report :=
  { id := op.id, description := op.description, type := op.type,
    result := .rnull, pass := false, message := "execution failed: " ++ msg }

/-- The error value a single operation can surface (Go `error` return of
the BaseExecutor methods); the constructors mirror the two `fmt.Errorf`
sites: "unsupported operation type: %s" and "assertion failed: %s". -/
inductive OpError where
  | unsupportedType : String → OpError
  | assertionFailed : String → OpError
deriving DecidableEq, Repr

/-- `BaseExecutor.executeSelect` from base.go, for a given port-call index:
on query failure a pass-false report and no error; on success the report
folds in `validateSelectResult`, and — unlike the DML path — a failed
assertion additionally sets the returned error to
"assertion failed: <message>". -/
def executeSelect (o : Oracle) (c : Nat) (op : Operation) : Report × Option OpError :=
  match o.query c op.sql with
  | .error e => (queryFailReport op e, none)
  | .ok rows =>
    let v := validateSelectResult rows op.expected
    ({ id := op.id, description := op.description, type := op.type,
       result := .rrows rows, pass := v.1, message := v.2 },
     if v.1 then none else some (.assertionFailed v.2))

/-- `BaseExecutor.executeDML` from base.go: on exec failure a pass-false
report; otherwise the report folds in `validateDMLResult`; the returned
error is always nil. -/
def executeDML (o : Oracle) (c : Nat) (op : Operation) : Report × Option OpError :=
  match o.exec c op.sql with
  | .error e => (execFailReport op e, none)
  | .ok affected =>
    let v := validateDMLResult affected op.expectedChanges op.type
    ({ id := op.id, description := op.description, type := op.type,
       result := .rcount affected, pass := v.1, message := v.2 }, none)

/-- The `(report, error)` pair returned by `BaseExecutor.executeOperation`:
the report pointer is nil exactly in the unsupported-type branch, so the
two shapes are packaged as two constructors. -/
inductive ExecResult where
  | unsupported : String → ExecResult
  | produced : Report → Option OpError → ExecResult
deriving Repr

/-- `BaseExecutor.executeOperation` from base.go: dispatch on the declared
type.  Each supported branch makes exactly one transaction-scoped port
call, so the call counter advances by one and one trace event is emitted;
the default branch makes no port call and returns
"unsupported operation type". -/
def executeOperation (o : Oracle) (c : Nat) (op : Operation) :
    ExecResult × Nat × List Event :=
  if op.type = TypeSelect then
    let p := executeSelect o c op
    (.produced p.1 p.2, c + 1, [Event.queryTx op.sql])
  else if op.type = TypeInsert ∨ op.type = TypeUpdate ∨ op.type = TypeDelete then
    let p := executeDML o c op
    (.produced p.1 p.2, c + 1, [Event.execTx op.sql])
  else
    (.unsupported op.type, c, [])

/-- The run-level error of an Execute call; constructors mirror the
`fmt.Errorf` sites of apply.go / plan.go: "failed to begin transaction",
"operation[%s]: %w" (wrapping an operation error),
"operation[%s] failed: %s" (a failed assertion in apply mode), and
"failed to commit transaction". -/
inductive RunError where
  | beginFailed : String → RunError
  | opRaised : String → OpError → RunError
  | opFailed : String → String → RunError
  | commitFailed : String → RunError
deriving DecidableEq, Repr

/-- The operation id a run error names, if it names one. -/
def RunError.opId? : RunError → Option String
  | .opRaised i _ => some i
  | .opFailed i _ => some i
  | _ => none

/-- The failure description carried by a run error that names an
operation (the text that follows "operation[id]" in the source). -/
def RunError.detail? : RunError → Option String
  | .opRaised _ (.assertionFailed m) => some ("assertion failed: " ++ m)
  | .opRaised _ (.unsupportedType t) => some ("unsupported operation type: " ++ t)
  | .opFailed _ m => some m
  | _ => none

/-- The loop of `ApplyExecutor.Execute` (apply.go): run the operations in
order on the one open transaction; append each produced report; on a
non-nil operation error, or on a pass-false report, roll back and stop
with an error naming the operation.  The function returns the reports and
events the loop contributes (the caller owns the begin/commit events). -/
def applyRun (o : Oracle) (c : Nat) : List Operation → List Report × Option RunError × Nat × List Event
  | [] => ([], none, c, [])
  | op :: rest =>
    match executeOperation o c op with
    | (.unsupported t, c1, ev) =>
      ([], some (.opRaised op.id (.unsupportedType t)), c1, ev ++ [Event.rollbackTx])
    | (.produced r eo, c1, ev) =>
      match eo with
      | some e => ([r], some (.opRaised op.id e), c1, ev ++ [Event.rollbackTx])
      | none =>
        if r.pass then
          match applyRun o c1 rest with
          | (rs, er, c2, ev2) => (r :: rs, er, c2, ev ++ ev2)
        else
          ([r], some (.opFailed op.id r.message), c1, ev ++ [Event.rollbackTx])

/-- `ApplyExecutor.Execute` (apply.go): begin one transaction, run the
loop, and commit only when the loop finished without aborting.  On commit
failure the Go code returns `nil, err`, dropping the collected reports. -/
def applyExecute (o : Oracle) (d : Definition) : List Report × Option RunError × List Event :=
  match o.beginRes with
  | some msg => ([], some (.beginFailed msg), [Event.beginTx false])
  | none =>
    match applyRun o 0 d.operations with
    | (reports, some e, _, ev) => (reports, some e, Event.beginTx true :: ev)
    | (reports, none, _, ev) =>
      match o.commitRes with
      | some msg => ([], some (.commitFailed msg), Event.beginTx true :: (ev ++ [Event.commitTx false]))
      | none => (reports, none, Event.beginTx true :: (ev ++ [Event.commitTx true]))

/-- The loop of `PlanExecutor.Execute` (plan.go): run the operations in
order on the one open transaction, appending every produced report; stop
early only when the operation itself returned a non-nil error (a
pass-false report alone does not stop the plan loop). -/
def planRun (o : Oracle) (c : Nat) : List Operation → List Report × Option RunError × Nat × List Event
  | [] => ([], none, c, [])
  | op :: rest =>
    match executeOperation o c op with
    | (.unsupported t, c1, ev) =>
      ([], some (.opRaised op.id (.unsupportedType t)), c1, ev)
    | (.produced r eo, c1, ev) =>
      match eo with
      | some e => ([r], some (.opRaised op.id e), c1, ev)
      | none =>
        match planRun o c1 rest with
        | (rs, er, c2, ev2) => (r :: rs, er, c2, ev ++ ev2)

/-- `PlanExecutor.Execute` (plan.go): begin one transaction with a deferred
rollback, run the loop, and return its reports and error; the deferred
rollback runs on every return path after a successful begin, and commit is
never called. -/
def planExecute (o : Oracle) (d : Definition) : List Report × Option RunError × List Event :=
  match o.beginRes with
  | some msg => ([], some (.beginFailed msg), [Event.beginTx false])
  | none =>
    match planRun o 0 d.operations with
    | (reports, er, _, ev) => (reports, er, Event.beginTx true :: (ev ++ [Event.rollbackTx]))

/-- `DetectSQLType` from internal/definition: trim, upcase, and match the
leading keyword. -/
def DetectSQLType (sql : String) : String :=
  let normalized := sql.trim.toUpper
  if normalized.startsWith "SELECT" then TypeSelect
  else if normalized.startsWith "INSERT" then TypeInsert
  else if normalized.startsWith "UPDATE" then TypeUpdate
  else if normalized.startsWith "DELETE" then TypeDelete
  else ""

/-- The id-generation loop of `Definition.Validate` (parser.go): find the
first `operation_N` not already taken.  The Go loop is unbounded but always
terminates within `len(taken) + 1` candidates; the fuel argument makes that
bound explicit. -/
def firstFreeOpId (taken : List String) : Nat → Nat → String
  | 0, idx => "operation_" ++ toString idx
  | fuel + 1, idx =>
    let cand := "operation_" ++ toString idx
    if taken.contains cand then firstFreeOpId taken fuel (idx + 1) else cand

/-- Per-operation body of `Definition.Validate` (parser.go), processing the
operations in order while carrying the set of taken ids: sql required; an
empty id gets the first free generated id; an empty type is auto-detected
from the sql; the type must be allowed; a select needs a non-empty
`expected`, DML a non-empty `expected_changes`.  Returns the normalized
operations (Go mutates them in place). -/
def validateLoop : List String → Nat → List Operation → Except String (List Operation)
  | _, _, [] => .ok []
  | existing, i, op :: rest =>
    if op.sql = "" then
      .error ("operation[" ++ toString i ++ "]: sql is required")
    else
      let opID := if op.id = "" then firstFreeOpId existing (existing.length + 1) 0 else op.id
      let existing2 := if op.id = "" then existing ++ [opID] else existing
      let opType := if op.type = "" then DetectSQLType op.sql else op.type
      if op.type = "" ∧ opType = "" then
        .error ("operation[" ++ opID ++ "]: unable to detect SQL type from query")
      else if ¬ AllowedTypes.contains opType then
        .error ("operation[" ++ opID ++ "]: unsupported type: " ++ opType ++
          " (allowed: [select insert update delete])")
      else if opType = TypeSelect ∧ op.expected.length = 0 then
        .error ("operation[" ++ opID ++ "]: expected is required for SELECT")
      else if opType ≠ TypeSelect ∧ op.expectedChanges.length = 0 then
        .error ("operation[" ++ opID ++ "]: expected_changes is required for DML")
      else
        match validateLoop existing2 (i + 1) rest with
        | .error m => .error m
        | .ok rs => .ok ({ op with id := opID, type := opType } :: rs)

/-- `Definition.Validate` from parser.go: version must be 0 or 1, then the
per-operation checks with the pre-collected explicit ids. -/
def Definition.Validate (d : Definition) : Except String (List Operation) :=
  if d.version ≠ 1 ∧ d.version ≠ 0 then
    .error ("unsupported version: " ++ toString d.version)
  else
    validateLoop ((d.operations.filter (fun op => op.id ≠ "")).map Operation.id) 0 d.operations

/-- The SQL text of a port call event, if the event is one. -/
def portSql : Event → Option String
  | .queryTx s => some s
  | .execTx s => some s
  | .queryDb s => some s
  | _ => none

/-- The SQL texts of the port calls of a trace, in order. -/
def portSqls (tr : List Event) : List String := tr.filterMap portSql

/-- Whether an event is a port call made through the open transaction. -/
def isTxPort : Event → Bool
  | .queryTx _ => true
  | .execTx _ => true
  | _ => false

/-- Whether an event is a BeginTransaction call. -/
def isBeginEvent : Event → Bool
  | .beginTx _ => true
  | _ => false

/-- Whether an event is a successful BeginTransaction call. -/
def isSuccessBegin : Event → Bool
  | .beginTx true => true
  | _ => false

/-- Whether an event is a Rollback call. -/
def isRollbackEvent : Event → Bool
  | .rollbackTx => true
  | _ => false

/-- Number of BeginTransaction calls recorded in a trace. -/
def beginEvents (tr : List Event) : Nat := tr.countP fun e => isBeginEvent e

/-- Number of successfully begun transactions recorded in a trace. -/
def successfulBegins (tr : List Event) : Nat := tr.countP fun e => isSuccessBegin e

/-- Number of Rollback calls recorded in a trace. -/
def rollbackEvents (tr : List Event) : Nat := tr.countP fun e => isRollbackEvent e

/-- `xs` is an initial segment of `ys`. -/
def isSqlPrefixOf (xs ys : List String) : Prop := ∃ zs, xs ++ zs = ys

/-- The report `executeOperation` builds for a supported operation at a
given port-call index. -/
def opReport (o : Oracle) (c : Nat) (op : Operation) : Report :=
  if op.type = TypeSelect then (executeSelect o c op).1 else (executeDML o c op).1

/-- The operation error `executeOperation` returns for a supported
operation at a given port-call index. -/
def opErr (o : Oracle) (c : Nat) (op : Operation) : Option OpError :=
  if op.type = TypeSelect then (executeSelect o c op).2 else (executeDML o c op).2

/-- The port-call event a supported operation emits. -/
def opEvent (op : Operation) : Event :=
  if op.type = TypeSelect then .queryTx op.sql else .execTx op.sql

/-- The reports of a straight-line run over the given operations starting
at a given port-call index. -/
def prefixReports (o : Oracle) (c : Nat) : List Operation → List Report
  | [] => []
  | op :: rest => opReport o c op :: prefixReports o (c + 1) rest

/-- The port-call events of a straight-line run over the given operations. -/
def opEvents (ops : List Operation) : List Event := ops.map opEvent

/-- The run error the apply loop produces when it stops at a supported
operation: the operation error when there is one, otherwise the failed
assertion of the pass-false report. -/
def applyStopErr (o : Oracle) (c : Nat) (op : Operation) : RunError :=
  match opErr o c op with
  | some e => .opRaised op.id e
  | none => .opFailed op.id (opReport o c op).message

/-- Whether a `(report, error)` pair counts as a raised error in the Go
sense (non-nil second return value of `executeOperation`). -/
def raisesError : ExecResult → Bool
  | .unsupported _ => true
  | .produced _ e => e.isSome

/-- Every column declared in the expected row is present in the actual row
and comparator-equal; columns of the actual row that are not declared are
not constrained. -/
def rowMatches (actualRow erow : Row) : Prop :=
  ∀ kv ∈ erow, ∃ av, lookupRow actualRow kv.1 = some av ∧ compareValues av kv.2 = true

/-- Positional match of all expected rows against the actual rows. -/
def allRowsMatch (actual expected : List Row) : Prop :=
  ∀ i, i < expected.length → rowMatches (actual.getD i []) (expected.getD i [])

/-! ### Concrete fixtures used to instantiate the theorems -/

/-- A database that answers every query with one row and every statement
with one affected row, and begins/commits without error. -/
def okOracle : Oracle :=
  { beginRes := none,
    query := fun _ _ => .ok [[("id", Value.vint 1)]],
    exec := fun _ _ => .ok 1,
    commitRes := none }

/-- A database whose statements affect zero rows. -/
def zeroExecOracle : Oracle :=
  { beginRes := none,
    query := fun _ _ => .ok [],
    exec := fun _ _ => .ok 0,
    commitRes := none }

/-- A database whose queries return no rows. -/
def emptyQueryOracle : Oracle :=
  { beginRes := none,
    query := fun _ _ => .ok [],
    exec := fun _ _ => .ok 1,
    commitRes := none }

/-- A database that fails the final Commit call. -/
def badCommitOracle : Oracle :=
  { beginRes := none,
    query := fun _ _ => .ok [],
    exec := fun _ _ => .ok 1,
    commitRes := some "connection lost" }

/-- An update operation expecting exactly one affected row. -/
def updateOp : Operation :=
  { id := "u1", description := "update one row", type := TypeUpdate,
    sql := "UPDATE t SET x = 1 WHERE id = 1", expected := [],
    expectedChanges := [("update", 1)] }

/-- A select operation expecting a single row with id 1. -/
def selectOp : Operation :=
  { id := "s1", description := "check the row", type := TypeSelect,
    sql := "SELECT id FROM t WHERE id = 1",
    expected := [[("id", Value.vint 1)]], expectedChanges := [] }

/-- A select operation with an empty expected-rows block. -/
def emptySelectOp : Operation :=
  { id := "s0", description := "bad select", type := TypeSelect,
    sql := "SELECT 1", expected := [], expectedChanges := [] }

/-- Definition holding one update operation. -/
def updateDef : Definition := { version := 1, operations := [updateOp] }

/-- Definition holding an update followed by a select. -/
def mixedDef : Definition := { version := 1, operations := [updateOp, selectOp] }

/-- Definition holding a select with an empty expected-rows block. -/
def emptySelectDef : Definition := { version := 1, operations := [emptySelectOp] }

/-! ### Basic facts about the operation dispatcher -/

theorem dml_type_ne_select {t : String}
    (h : t = TypeInsert ∨ t = TypeUpdate ∨ t = TypeDelete) : t ≠ TypeSelect := by
  rcases h with h | h | h <;> rw [h] <;> decide

theorem executeOperation_select (o : Oracle) (c : Nat) (op : Operation)
    (h : op.type = TypeSelect) :
    executeOperation o c op =
      (.produced (executeSelect o c op).1 (executeSelect o c op).2, c + 1,
        [Event.queryTx op.sql]) := by
  simp [executeOperation, h]

theorem executeOperation_dml (o : Oracle) (c : Nat) (op : Operation)
    (h : op.type = TypeInsert ∨ op.type = TypeUpdate ∨ op.type = TypeDelete) :
    executeOperation o c op =
      (.produced (executeDML o c op).1 (executeDML o c op).2, c + 1,
        [Event.execTx op.sql]) := by
  rw [executeOperation, if_neg (dml_type_ne_select h), if_pos h]

theorem mem_allowed_iff {t : String} :
    t ∈ AllowedTypes ↔ t = TypeSelect ∨ t = TypeInsert ∨ t = TypeUpdate ∨ t = TypeDelete := by
  simp [AllowedTypes]

theorem executeOperation_supported (o : Oracle) (c : Nat) (op : Operation)
    (h : op.type ∈ AllowedTypes) :
    executeOperation o c op =
      (.produced (opReport o c op) (opErr o c op), c + 1, [opEvent op]) := by
  rcases mem_allowed_iff.1 h with hs | hd
  · rw [executeOperation_select o c op hs, opReport, opErr, opEvent, if_pos hs, if_pos hs, if_pos hs]
  · have hne := dml_type_ne_select hd
    rw [executeOperation_dml o c op hd, opReport, opErr, opEvent,
      if_neg hne, if_neg hne, if_neg hne]

theorem executeOperation_unsupported (o : Oracle) (c : Nat) (op : Operation)
    (h : op.type ∉ AllowedTypes) :
    executeOperation o c op = (.unsupported op.type, c, []) := by
  rw [mem_allowed_iff] at h
  push_neg at h
  rw [executeOperation, if_neg h.1, if_neg (by tauto)]

theorem executeOperation_cases (o : Oracle) (c : Nat) (op : Operation) :
    (op.type ∈ AllowedTypes ∧
      executeOperation o c op =
        (.produced (opReport o c op) (opErr o c op), c + 1, [opEvent op])) ∨
    (op.type ∉ AllowedTypes ∧ executeOperation o c op = (.unsupported op.type, c, [])) := by
  by_cases h : op.type ∈ AllowedTypes
  · exact Or.inl ⟨h, executeOperation_supported o c op h⟩
  · exact Or.inr ⟨h, executeOperation_unsupported o c op h⟩

theorem executeSelect_fields (o : Oracle) (c : Nat) (op : Operation) :
    (executeSelect o c op).1.id = op.id ∧
    (executeSelect o c op).1.description = op.description ∧
    (executeSelect o c op).1.type = op.type := by
  cases h : o.query c op.sql <;> simp [executeSelect, h, queryFailReport]

theorem executeDML_fields (o : Oracle) (c : Nat) (op : Operation) :
    (executeDML o c op).1.id = op.id ∧
    (executeDML o c op).1.description = op.description ∧
    (executeDML o c op).1.type = op.type := by
  cases h : o.exec c op.sql <;> simp [executeDML, h, execFailReport]

theorem opReport_fields (o : Oracle) (c : Nat) (op : Operation) :
    (opReport o c op).id = op.id ∧
    (opReport o c op).description = op.description ∧
    (opReport o c op).type = op.type := by
  rw [opReport]
  split
  · exact executeSelect_fields o c op
  · exact executeDML_fields o c op

theorem opErr_some (o : Oracle) (c : Nat) (op : Operation) (e : OpError)
    (h : opErr o c op = some e) :
    e = .assertionFailed (opReport o c op).message ∧ (opReport o c op).pass = false := by
  rw [opErr] at h
  rw [opReport]
  split at h
  · rw [if_pos (by assumption)]
    rw [executeSelect] at h ⊢
    cases hq : o.query c op.sql with
    | error m => simp [hq, queryFailReport] at h
    | ok rows =>
      simp only [hq] at h ⊢
      by_cases hv : (validateSelectResult rows op.expected).1
      · rw [if_pos hv] at h; simp at h
      · rw [if_neg hv] at h
        simp only [Option.some_inj] at h
        simp only [Bool.not_eq_true] at hv
        exact ⟨h.symm, by simpa using hv⟩
  · rw [if_neg (by assumption)]
    rw [executeDML] at h
    cases hq : o.exec c op.sql with
    | error m => simp [hq] at h
    | ok n => simp [hq] at h

theorem pass_true_opErr_none (o : Oracle) (c : Nat) (op : Operation)
    (h : (opReport o c op).pass = true) : opErr o c op = none := by
  cases he : opErr o c op with
  | none => rfl
  | some e =>
    have := (opErr_some o c op e he).2
    rw [this] at h
    exact absurd h (by simp)

/-! ### Facts about straight-line report and event lists -/

theorem prefixReports_length (o : Oracle) (ops : List Operation) :
    ∀ c, (prefixReports o c ops).length = ops.length := by
  induction ops with
  | nil => intro c; simp [prefixReports]
  | cons op rest ih => intro c; simp [prefixReports, ih (c + 1)]

theorem prefixReports_getD (o : Oracle) (ops : List Operation) :
    ∀ c i, i < ops.length →
      (prefixReports o c ops).getD i default = opReport o (c + i) (ops.getD i default) := by
  induction ops with
  | nil => intro c i h; simp at h
  | cons op rest ih =>
    intro c i h
    cases i with
    | zero => simp [prefixReports]
    | succ j =>
      have hj : j < rest.length := by simpa using h
      have := ih (c + 1) j hj
      simp only [prefixReports, List.getD_cons_succ, this]
      congr 1
      omega

theorem portSql_opEvent (op : Operation) : portSql (opEvent op) = some op.sql := by
  rw [opEvent]
  split <;> rfl

theorem portSqls_append (a b : List Event) : portSqls (a ++ b) = portSqls a ++ portSqls b := by
  simp [portSqls]

theorem portSqls_opEvents (ops : List Operation) :
    portSqls (opEvents ops) = ops.map Operation.sql := by
  induction ops with
  | nil => rfl
  | cons op rest ih =>
    simp only [opEvents, List.map_cons] at ih ⊢
    simp only [portSqls, List.filterMap_cons, portSql_opEvent]
    simpa [portSqls] using ih

theorem opEvents_txPort (ops : List Operation) :
    ∀ e ∈ opEvents ops, isTxPort e = true := by
  intro e he
  rcases List.mem_map.1 he with ⟨op, _, rfl⟩
  rw [opEvent]
  split <;> rfl

/-! ### Characterization of the apply loop -/

theorem applyRun_all_pass (o : Oracle) (ops : List Operation) :
    ∀ c, (∀ op ∈ ops, op.type ∈ AllowedTypes) →
    (∀ i, i < ops.length → (opReport o (c + i) (ops.getD i default)).pass = true) →
    applyRun o c ops = (prefixReports o c ops, none, c + ops.length, opEvents ops) := by
  induction ops with
  | nil => intro c _ _; simp [applyRun, prefixReports, opEvents]
  | cons op rest ih =>
    intro c hsup hpass
    have hsupop : op.type ∈ AllowedTypes := hsup op (List.mem_cons_self _ _)
    have h0 : (opReport o c op).pass = true := by simpa using hpass 0 (by simp)
    have hnone : opErr o c op = none := pass_true_opErr_none o c op h0
    have hrec := ih (c + 1) (fun op' hm => hsup op' (List.mem_cons_of_mem _ hm))
      (fun i hi => by
        have := hpass (i + 1) (by simpa using Nat.succ_lt_succ hi)
        simpa [Nat.add_assoc, Nat.add_comm 1 i] using this)
    have harith : c + (rest.length + 1) = c + 1 + rest.length := by omega
    simp only [applyRun, executeOperation_supported o c op hsupop, hnone, h0, if_true, hrec,
      prefixReports, opEvents, List.map_cons, List.length_cons, List.singleton_append, harith]

theorem applyRun_stops (o : Oracle) (ops : List Operation) :
    ∀ c i, (∀ op ∈ ops, op.type ∈ AllowedTypes) →
    i < ops.length →
    (opReport o (c + i) (ops.getD i default)).pass = false →
    (∀ j, j < i → (opReport o (c + j) (ops.getD j default)).pass = true) →
    applyRun o c ops = (prefixReports o c (ops.take (i + 1)),
        some (applyStopErr o (c + i) (ops.getD i default)),
        c + i + 1,
        opEvents (ops.take (i + 1)) ++ [Event.rollbackTx]) := by
  induction ops with
  | nil => intro c i _ h; simp at h
  | cons op rest ih =>
    intro c i hsup hi hfail hprev
    have hsupop : op.type ∈ AllowedTypes := hsup op (List.mem_cons_self _ _)
    cases i with
    | zero =>
      have h0 : (opReport o c op).pass = false := by simpa using hfail
      simp only [applyRun, executeOperation_supported o c op hsupop]
      cases hoe : opErr o c op with
      | some e =>
        simp only [applyStopErr, Nat.add_zero, List.getD_cons_zero, hoe]
        simp [List.take_succ_cons, prefixReports, opEvents]
      | none =>
        simp only [hoe, h0, Bool.false_eq_true, if_false]
        simp only [applyStopErr, Nat.add_zero, List.getD_cons_zero, hoe]
        simp [List.take_succ_cons, prefixReports, opEvents]
    | succ j =>
      have h0 : (opReport o c op).pass = true := by simpa using hprev 0 (Nat.succ_pos j)
      have hnone : opErr o c op = none := pass_true_opErr_none o c op h0
      have hj : j < rest.length := by simpa using hi
      have hfail' : (opReport o (c + 1 + j) (rest.getD j default)).pass = false := by
        have := hfail
        simp only [List.getD_cons_succ] at this
        simpa [Nat.add_assoc, Nat.add_comm 1 j] using this
      have hprev' : ∀ k, k < j → (opReport o (c + 1 + k) (rest.getD k default)).pass = true := by
        intro k hk
        have := hprev (k + 1) (Nat.succ_lt_succ hk)
        simp only [List.getD_cons_succ] at this
        simpa [Nat.add_assoc, Nat.add_comm 1 k] using this
      have hrec := ih (c + 1) j (fun op' hm => hsup op' (List.mem_cons_of_mem _ hm)) hj hfail' hprev'
      have harith : c + (j + 1) = c + 1 + j := by omega
      simp only [applyRun, executeOperation_supported o c op hsupop, hnone, h0, if_true, hrec,
        List.take_succ_cons, prefixReports, opEvents, List.map_cons, List.getD_cons_succ,
        List.singleton_append, harith, List.cons_append, List.nil_append]

/-! ### Characterization of the plan loop -/

theorem planRun_no_err (o : Oracle) (ops : List Operation) :
    ∀ c, (∀ op ∈ ops, op.type ∈ AllowedTypes) →
    (∀ i, i < ops.length → opErr o (c + i) (ops.getD i default) = none) →
    planRun o c ops = (prefixReports o c ops, none, c + ops.length, opEvents ops) := by
  induction ops with
  | nil => intro c _ _; simp [planRun, prefixReports, opEvents]
  | cons op rest ih =>
    intro c hsup hnone
    have hsupop : op.type ∈ AllowedTypes := hsup op (List.mem_cons_self _ _)
    have h0 : opErr o c op = none := by simpa using hnone 0 (by simp)
    have hrec := ih (c + 1) (fun op' hm => hsup op' (List.mem_cons_of_mem _ hm))
      (fun i hi => by
        have := hnone (i + 1) (by simpa using Nat.succ_lt_succ hi)
        simpa [Nat.add_assoc, Nat.add_comm 1 i] using this)
    have harith : c + (rest.length + 1) = c + 1 + rest.length := by omega
    simp only [planRun, executeOperation_supported o c op hsupop, h0, hrec,
      prefixReports, opEvents, List.map_cons, List.length_cons, List.singleton_append, harith,
      List.cons_append, List.nil_append]

theorem planRun_stops (o : Oracle) (ops : List Operation) :
    ∀ c i e, (∀ op ∈ ops, op.type ∈ AllowedTypes) →
    i < ops.length →
    opErr o (c + i) (ops.getD i default) = some e →
    (∀ j, j < i → opErr o (c + j) (ops.getD j default) = none) →
    planRun o c ops = ((prefixReports o c (ops.take (i + 1))),
        some (.opRaised (ops.getD i default).id e),
        c + i + 1,
        opEvents (ops.take (i + 1))) := by
  induction ops with
  | nil => intro c i e _ h; simp at h
  | cons op rest ih =>
    intro c i e hsup hi hstop hprev
    have hsupop : op.type ∈ AllowedTypes := hsup op (List.mem_cons_self _ _)
    cases i with
    | zero =>
      have h0 : opErr o c op = some e := by simpa using hstop
      simp only [planRun, executeOperation_supported o c op hsupop, h0, Nat.add_zero,
        List.getD_cons_zero]
      simp [List.take_succ_cons, prefixReports, opEvents]
    | succ j =>
      have h0 : opErr o c op = none := by simpa using hprev 0 (Nat.succ_pos j)
      have hj : j < rest.length := by simpa using hi
      have hstop' : opErr o (c + 1 + j) (rest.getD j default) = some e := by
        have := hstop
        simp only [List.getD_cons_succ] at this
        simpa [Nat.add_assoc, Nat.add_comm 1 j] using this
      have hprev' : ∀ k, k < j → opErr o (c + 1 + k) (rest.getD k default) = none := by
        intro k hk
        have := hprev (k + 1) (Nat.succ_lt_succ hk)
        simp only [List.getD_cons_succ] at this
        simpa [Nat.add_assoc, Nat.add_comm 1 k] using this
      have hrec := ih (c + 1) j e (fun op' hm => hsup op' (List.mem_cons_of_mem _ hm)) hj hstop' hprev'
      have harith : c + (j + 1) = c + 1 + j := by omega
      simp only [planRun, executeOperation_supported o c op hsupop, h0, hrec,
        List.take_succ_cons, prefixReports, opEvents, List.map_cons, List.getD_cons_succ,
        List.singleton_append, harith, List.cons_append, List.nil_append]

/-! ### Alignment of reports with operations (no assumptions on types) -/

theorem applyRun_align (o : Oracle) (ops : List Operation) :
    ∀ c, (applyRun o c ops).1.length ≤ ops.length ∧
    (∀ i, i < (applyRun o c ops).1.length →
      ((applyRun o c ops).1.getD i default).id = (ops.getD i default).id ∧
      ((applyRun o c ops).1.getD i default).description = (ops.getD i default).description ∧
      ((applyRun o c ops).1.getD i default).type = (ops.getD i default).type) := by
  induction ops with
  | nil => intro c; simp [applyRun]
  | cons op rest ih =>
    intro c
    rcases executeOperation_cases o c op with ⟨_, heq⟩ | ⟨_, heq⟩
    · simp only [applyRun, heq]
      cases hoe : opErr o c op with
      | some e =>
        refine ⟨by simp, ?_⟩
        intro i hi
        have hi0 : i = 0 := by simpa using hi
        subst hi0
        simpa using opReport_fields o c op
      | none =>
        cases hp : (opReport o c op).pass with
        | true =>
          simp only [hp, if_true]
          rcases ih (c + 1) with ⟨ihlen, ihget⟩
          constructor
          · simpa using Nat.succ_le_succ ihlen
          · intro i hi
            cases i with
            | zero => simpa using opReport_fields o c op
            | succ j =>
              have hj : j < (applyRun o (c + 1) rest).1.length := by simpa using hi
              simpa using ihget j hj
        | false =>
          simp only [hp, Bool.false_eq_true, if_false]
          refine ⟨by simp, ?_⟩
          intro i hi
          have hi0 : i = 0 := by simpa using hi
          subst hi0
          simpa using opReport_fields o c op
    · simp only [applyRun, heq]
      simp

theorem planRun_align (o : Oracle) (ops : List Operation) :
    ∀ c, (planRun o c ops).1.length ≤ ops.length ∧
    (∀ i, i < (planRun o c ops).1.length →
      ((planRun o c ops).1.getD i default).id = (ops.getD i default).id ∧
      ((planRun o c ops).1.getD i default).description = (ops.getD i default).description ∧
      ((planRun o c ops).1.getD i default).type = (ops.getD i default).type) := by
  induction ops with
  | nil => intro c; simp [planRun]
  | cons op rest ih =>
    intro c
    rcases executeOperation_cases o c op with ⟨_, heq⟩ | ⟨_, heq⟩
    · simp only [planRun, heq]
      cases hoe : opErr o c op with
      | some e =>
        refine ⟨by simp, ?_⟩
        intro i hi
        have hi0 : i = 0 := by simpa using hi
        subst hi0
        simpa using opReport_fields o c op
      | none =>
        rcases ih (c + 1) with ⟨ihlen, ihget⟩
        constructor
        · simpa using Nat.succ_le_succ ihlen
        · intro i hi
          cases i with
          | zero => simpa using opReport_fields o c op
          | succ j =>
            have hj : j < (planRun o (c + 1) rest).1.length := by simpa using hi
            simpa using ihget j hj
    · simp only [planRun, heq]
      simp

/-! ### Trace shape of the two loops (no assumptions on types) -/

theorem portSql_rollback : portSql Event.rollbackTx = none := rfl

theorem portSql_beginTx (b : Bool) : portSql (Event.beginTx b) = none := rfl

theorem portSql_commitTx (b : Bool) : portSql (Event.commitTx b) = none := rfl

theorem isTxPort_opEvent (op : Operation) : isTxPort (opEvent op) = true := by
  rw [opEvent]; split <;> rfl

theorem portSqls_stop (op : Operation) :
    portSqls ([opEvent op] ++ [Event.rollbackTx]) = [op.sql] := by
  simp [portSqls, portSql_opEvent, portSql_rollback]

theorem take_one_cons (op : Operation) (rest : List Operation) :
    (op :: rest).take 1 = [op] := by
  simp

theorem applyRun_trace (o : Oracle) (ops : List Operation) :
    ∀ c, ∃ k, k ≤ ops.length ∧
      portSqls (applyRun o c ops).2.2.2 = ((ops.take k).map Operation.sql) ∧
      (∀ e ∈ (applyRun o c ops).2.2.2, isTxPort e = true ∨ e = Event.rollbackTx) ∧
      ((applyRun o c ops).2.1 = none → (applyRun o c ops).2.2.2 = opEvents ops) := by
  induction ops with
  | nil => intro c; exact ⟨0, by simp [applyRun, portSqls, opEvents]⟩
  | cons op rest ih =>
    intro c
    have hmem1 : ∀ x ∈ [opEvent op] ++ [Event.rollbackTx], isTxPort x = true ∨ x = Event.rollbackTx := by
      intro x hx
      rcases List.mem_append.1 hx with hx | hx
      · left
        have hx' : x = opEvent op := by simpa using hx
        rw [hx']; exact isTxPort_opEvent op
      · right
        simpa using hx
    rcases executeOperation_cases o c op with ⟨_, heq⟩ | ⟨_, heq⟩
    · cases hoe : opErr o c op with
      | some e =>
        refine ⟨1, by simp, ?_, ?_, ?_⟩
        · simp only [applyRun, heq, hoe]
          rw [portSqls_stop, take_one_cons]
          rfl
        · simp only [applyRun, heq, hoe]
          exact hmem1
        · simp only [applyRun, heq, hoe]
          intro hcon
          exact absurd hcon (by simp)
      | none =>
        cases hp : (opReport o c op).pass with
        | true =>
          rcases ih (c + 1) with ⟨k, hk, hsql, hmemr, hfull⟩
          refine ⟨k + 1, by simpa using Nat.succ_le_succ hk, ?_, ?_, ?_⟩
          · simp only [applyRun, heq, hoe, hp, if_true, List.take_succ_cons, List.map_cons]
            rw [portSqls_append]
            simp only [portSqls, List.filterMap_cons, portSql_opEvent, List.filterMap_nil]
            rw [← portSqls]
            rw [hsql]
            rfl
          · simp only [applyRun, heq, hoe, hp, if_true]
            intro x hx
            rcases List.mem_append.1 hx with hx | hx
            · left
              have hx' : x = opEvent op := by simpa using hx
              rw [hx']; exact isTxPort_opEvent op
            · exact hmemr x hx
          · simp only [applyRun, heq, hoe, hp, if_true]
            intro herr
            rw [hfull herr]
            simp [opEvents]
        | false =>
          refine ⟨1, by simp, ?_, ?_, ?_⟩
          · simp only [applyRun, heq, hoe, hp, Bool.false_eq_true, if_false]
            rw [portSqls_stop, take_one_cons]
            rfl
          · simp only [applyRun, heq, hoe, hp, Bool.false_eq_true, if_false]
            exact hmem1
          · simp only [applyRun, heq, hoe, hp, Bool.false_eq_true, if_false]
            intro hcon
            exact absurd hcon (by simp)
    · refine ⟨0, by simp, ?_, ?_, ?_⟩
      · simp only [applyRun, heq]
        simp [portSqls, portSql_rollback]
      · simp only [applyRun, heq]
        intro x hx
        right
        simpa using hx
      · simp only [applyRun, heq]
        intro hcon
        exact absurd hcon (by simp)

theorem planRun_trace (o : Oracle) (ops : List Operation) :
    ∀ c, ∃ k, k ≤ ops.length ∧
      portSqls (planRun o c ops).2.2.2 = ((ops.take k).map Operation.sql) ∧
      (∀ e ∈ (planRun o c ops).2.2.2, isTxPort e = true) ∧
      ((planRun o c ops).2.1 = none → (planRun o c ops).2.2.2 = opEvents ops) := by
  induction ops with
  | nil => intro c; exact ⟨0, by simp [planRun, portSqls, opEvents]⟩
  | cons op rest ih =>
    intro c
    rcases executeOperation_cases o c op with ⟨_, heq⟩ | ⟨_, heq⟩
    · cases hoe : opErr o c op with
      | some e =>
        refine ⟨1, by simp, ?_, ?_, ?_⟩
        · simp only [planRun, heq, hoe]
          rw [take_one_cons]
          simp [portSqls, portSql_opEvent]
        · simp only [planRun, heq, hoe]
          intro x hx
          have hx' : x = opEvent op := by simpa using hx
          rw [hx']; exact isTxPort_opEvent op
        · simp only [planRun, heq, hoe]
          intro hcon
          exact absurd hcon (by simp)
      | none =>
        rcases ih (c + 1) with ⟨k, hk, hsql, hmemr, hfull⟩
        refine ⟨k + 1, by simpa using Nat.succ_le_succ hk, ?_, ?_, ?_⟩
        · simp only [planRun, heq, hoe, List.take_succ_cons, List.map_cons]
          rw [portSqls_append]
          simp only [portSqls, List.filterMap_cons, portSql_opEvent, List.filterMap_nil]
          rw [← portSqls]
          rw [hsql]
          rfl
        · simp only [planRun, heq, hoe]
          intro x hx
          rcases List.mem_append.1 hx with hx | hx
          · have hx' : x = opEvent op := by simpa using hx
            rw [hx']; exact isTxPort_opEvent op
          · exact hmemr x hx
        · simp only [planRun, heq, hoe]
          intro herr
          rw [hfull herr]
          simp [opEvents]
    · refine ⟨0, by simp, ?_, ?_, ?_⟩
      · simp only [planRun, heq]
        rfl
      · simp only [planRun, heq]
        intro x hx
        simp at hx
      · simp only [planRun, heq]
        intro hcon
        exact absurd hcon (by simp)

/-! ### First-failure behaviour of the select validator -/

theorem rowFailure_none_iff (i : Nat) (arow : Row) :
    ∀ erow : Row, rowFailure i arow erow = none ↔
      ∀ kv ∈ erow, ∃ av, lookupRow arow kv.1 = some av ∧ compareValues av kv.2 = true := by
  intro erow
  induction erow with
  | nil => simp [rowFailure]
  | cons kv rest ih =>
    rcases kv with ⟨key, ev⟩
    cases hl : lookupRow arow key with
    | none =>
      simp only [rowFailure, hl]
      constructor
      · intro h; simp at h
      · intro h
        rcases h (key, ev) (List.mem_cons_self _ _) with ⟨av, hav, _⟩
        rw [hl] at hav
        simp at hav
    | some av =>
      simp only [rowFailure, hl]
      by_cases hc : compareValues av ev
      · rw [if_pos hc, ih]
        constructor
        · intro h kv hkv
          rcases List.mem_cons.1 hkv with rfl | hkv'
          · exact ⟨av, hl, hc⟩
          · exact h kv hkv'
        · intro h kv hkv
          exact h kv (List.mem_cons_of_mem _ hkv)
      · rw [if_neg hc]
        constructor
        · intro h; simp at h
        · intro h
          rcases h (key, ev) (List.mem_cons_self _ _) with ⟨av2, hav2, hc2⟩
          rw [hl] at hav2
          have : av2 = av := by simpa using hav2.symm
          rw [this] at hc2
          exact absurd hc2 (by simpa using hc)

theorem rowFailure_some (i : Nat) (arow : Row) :
    ∀ (erow : Row) (m : String), rowFailure i arow erow = some m →
      ∃ kv ∈ erow,
        (lookupRow arow kv.1 = none ∧ m = missingColMsg kv.1 i) ∨
        (∃ av, lookupRow arow kv.1 = some av ∧ compareValues av kv.2 = false ∧
          m = valueMismatchMsg i kv.1 kv.2 av) := by
  intro erow
  induction erow with
  | nil => intro m h; simp [rowFailure] at h
  | cons kv rest ih =>
    rcases kv with ⟨key, ev⟩
    intro m h
    cases hl : lookupRow arow key with
    | none =>
      simp only [rowFailure, hl] at h
      refine ⟨(key, ev), List.mem_cons_self _ _, Or.inl ⟨hl, ?_⟩⟩
      simpa using h.symm
    | some av =>
      simp only [rowFailure, hl] at h
      by_cases hc : compareValues av ev
      · rw [if_pos hc] at h
        rcases ih m h with ⟨kv2, hkv2, hres⟩
        exact ⟨kv2, List.mem_cons_of_mem _ hkv2, hres⟩
      · rw [if_neg hc] at h
        refine ⟨(key, ev), List.mem_cons_self _ _,
          Or.inr ⟨av, hl, by simpa using hc, ?_⟩⟩
        simpa using h.symm

theorem rowsFailure_none_iff (actual : List Row) :
    ∀ (erows : List Row) (j : Nat), j + erows.length ≤ actual.length →
    (rowsFailure actual j erows = none ↔
      ∀ i, i < erows.length →
        rowFailure (j + i) (actual.getD (j + i) []) (erows.getD i []) = none) := by
  intro erows
  induction erows with
  | nil => intro j h; simp [rowsFailure]
  | cons erow rest ih =>
    intro j h
    have hj : j < actual.length := by
      simp only [List.length_cons] at h
      omega
    have ha : actual.get? j = some (actual.getD j []) := by
      rw [List.get?_eq_getElem?, List.getD_eq_getElem?_getD]
      cases hq : actual[j]? with
      | none => rw [List.getElem?_eq_none_iff] at hq; omega
      | some a => rfl
    cases hr : rowFailure j (actual.getD j []) erow with
    | some m =>
      simp only [rowsFailure, ha, hr]
      constructor
      · intro h'; simp at h'
      · intro hall
        have := hall 0 (by simp)
        rw [Nat.add_zero, List.getD_cons_zero, hr] at this
        simp at this
    | none =>
      simp only [rowsFailure, ha, hr]
      have hrest : j + 1 + rest.length ≤ actual.length := by
        simp only [List.length_cons] at h
        omega
      rw [ih (j + 1) hrest]
      constructor
      · intro hrec i hi
        cases i with
        | zero =>
          rw [Nat.add_zero, List.getD_cons_zero]
          exact hr
        | succ k =>
          have hk : k < rest.length := by simpa using hi
          have := hrec k hk
          rw [List.getD_cons_succ]
          have harith : j + (k + 1) = j + 1 + k := by omega
          rw [harith]
          exact this
      · intro hall i hi
        have := hall (i + 1) (by simpa using Nat.succ_lt_succ hi)
        rw [List.getD_cons_succ] at this
        have harith : j + 1 + i = j + (i + 1) := by omega
        rw [harith]
        exact this

theorem rowsFailure_some (actual : List Row) :
    ∀ (erows : List Row) (j : Nat) (m : String), j + erows.length ≤ actual.length →
    rowsFailure actual j erows = some m →
    ∃ i, i < erows.length ∧
      rowFailure (j + i) (actual.getD (j + i) []) (erows.getD i []) = some m := by
  intro erows
  induction erows with
  | nil => intro j m _ h; simp [rowsFailure] at h
  | cons erow rest ih =>
    intro j m hle h
    have hj : j < actual.length := by
      simp only [List.length_cons] at hle
      omega
    have ha : actual.get? j = some (actual.getD j []) := by
      rw [List.get?_eq_getElem?, List.getD_eq_getElem?_getD]
      cases hq : actual[j]? with
      | none => rw [List.getElem?_eq_none_iff] at hq; omega
      | some a => rfl
    cases hr : rowFailure j (actual.getD j []) erow with
    | some m2 =>
      simp only [rowsFailure, ha, hr] at h
      refine ⟨0, by simp, ?_⟩
      rw [Nat.add_zero, List.getD_cons_zero, hr]
      simpa using h
    | none =>
      simp only [rowsFailure, ha, hr] at h
      have hrest : j + 1 + rest.length ≤ actual.length := by
        simp only [List.length_cons] at hle
        omega
      rcases ih (j + 1) m hrest h with ⟨k, hk, hres⟩
      refine ⟨k + 1, by simpa using Nat.succ_lt_succ hk, ?_⟩
      rw [List.getD_cons_succ]
      have harith : j + (k + 1) = j + 1 + k := by omega
      rw [harith]
      exact hres

/-! ### Definition.Validate rejects selects with empty expectations -/

theorem validateLoop_ok_head (existing : List String) (i : Nat) (op : Operation)
    (rest : List Operation) (res : List Operation)
    (hok : validateLoop existing i (op :: rest) = .ok res)
    (ht : op.type = TypeSelect) (he : op.expected = []) : False := by
  by_cases hsql : op.sql = ""
  · simp [validateLoop, hsql] at hok
  · simp [validateLoop, hsql, ht, he, TypeSelect, TypeInsert, TypeUpdate, TypeDelete,
      AllowedTypes] at hok

theorem validateLoop_ok_tail (existing : List String) (i : Nat) (op : Operation)
    (rest : List Operation) (res : List Operation)
    (hok : validateLoop existing i (op :: rest) = .ok res) :
    ∃ ex2 res2, validateLoop ex2 (i + 1) rest = .ok res2 := by
  simp only [validateLoop] at hok
  set opID := (if op.id = "" then firstFreeOpId existing (existing.length + 1) 0 else op.id) with hID
  set opTy := (if op.type = "" then DetectSQLType op.sql else op.type) with hTy
  set ex2 := (if op.id = "" then existing ++ [opID] else existing) with hEx
  repeat' split at hok
  all_goals try (rename_i rs heq; exact ⟨_, _, heq⟩)
  all_goals exact absurd hok (by simp)

theorem validateLoop_no_bad_select :
    ∀ (ops : List Operation) (existing : List String) (i : Nat) (res : List Operation),
    validateLoop existing i ops = .ok res →
    ∀ op ∈ ops, ¬(op.type = TypeSelect ∧ op.expected = []) := by
  intro ops
  induction ops with
  | nil => intro existing i res hok op hm; simp at hm
  | cons op0 rest ih =>
    intro existing i res hok op hm hbad
    rcases List.mem_cons.1 hm with rfl | hm'
    · exact validateLoop_ok_head existing i op rest res hok hbad.1 hbad.2
    · rcases validateLoop_ok_tail existing i op0 rest res hok with ⟨ex2, res2, hok2⟩
      exact ih ex2 (i + 1) res2 hok2 op hm' hbad

/-! ### Claim C4: comparison of values in different host representations -/

/-- C4 (counterexample): the claim says a text value returned by the driver
as a byte sequence compares equal to the same text given as a string
expectation.  It does not: the byte slice renders as a bracketed decimal
list, so the byte sequence for the text "1" (byte 49) is not
comparator-equal to the string "1", although the two are structurally the
same text. -/
theorem compareValues_bytes_vs_string :
    compareValues (.vbytes [49]) (.vstr "1") = false ∧ renderBytes [49] = "[49]" := by
  constructor <;> rfl

/-- C4 (amended): values of different dynamic kinds are compared by
rendering both sides with the fmt default verb and comparing the renderings
as text; this makes an integer equal the string of its decimal rendering,
but a byte sequence renders as a bracketed decimal byte list, so a text
value carried as a byte sequence does not compare equal to the same text
carried as a string. -/
theorem compareValues_fallback :
    (∀ a e : Value, a ≠ .vnull → e ≠ .vnull → a.kindTag ≠ e.kindTag →
      compareValues a e = (render a == render e)) ∧
    (∀ n : Int, compareValues (.vint n) (.vstr (toString n)) = true) ∧
    compareValues (.vbytes [49]) (.vstr "1") = false := by
  refine ⟨?_, ?_, rfl⟩
  · intro a e h1 h2 h3
    cases a <;> cases e <;> simp_all [compareValues, Value.kindTag]
  · intro n
    simp [compareValues, Value.kindTag, render]

/-- Witness for C4 (amended), at integer 1 against string "1". -/
theorem compareValues_fallback_witness :
    compareValues (.vint 1) (.vstr "1") = (render (.vint 1) == render (.vstr "1")) :=
  compareValues_fallback.1 (.vint 1) (.vstr "1") (by decide) (by decide) (by decide)

/-! ### Claim C7: the DML validator -/

/-- C7: validateDMLResult fails with the "no expected count specified"
message when the expected-changes mapping has no entry for the operation
type; fails with a message naming the expected and actual counts when they
differ; and returns (true, "assertion passed") exactly when the entry for
the type equals the actual affected count.  At expected 1 and actual 0 the
mismatch message is literally "affected rows mismatch: expected 1, got 0",
which contains "expected 1, got 0". -/
theorem validateDML_characterization (actual : Int) (expected : List (String × Int))
    (opType : String) :
    (lookupChanges expected opType = none →
      validateDMLResult actual expected opType = (false, noExpectedCountMsg opType)) ∧
    (∀ e, lookupChanges expected opType = some e → actual ≠ e →
      validateDMLResult actual expected opType = (false, affectedMismatchMsg e actual)) ∧
    (validateDMLResult actual expected opType = (true, "assertion passed") ↔
      lookupChanges expected opType = some actual) ∧
    affectedMismatchMsg 1 0 = "affected rows mismatch: expected 1, got 0" := by
  refine ⟨?_, ?_, ?_, by decide⟩
  · intro h
    simp [validateDMLResult, h]
  · intro e h hne
    simp [validateDMLResult, h, hne]
  · cases h : lookupChanges expected opType with
    | none =>
      simp only [validateDMLResult, h]
      constructor
      · intro hcon
        exact absurd hcon (by simp)
      · intro hcon
        exact absurd hcon (by simp)
    | some e =>
      simp only [validateDMLResult, h]
      by_cases hae : actual = e
      · subst hae
        simp
      · rw [if_pos hae]
        constructor
        · intro hcon
          exact absurd hcon (by simp)
        · intro hcon
          have heq2 : e = actual := by simpa using hcon
          exact absurd heq2.symm hae

/-- Witness for C7, at actual 0 against an expected update count of 1. -/
theorem validateDML_characterization_witness :
    validateDMLResult 0 [("update", 1)] "update" = (false, affectedMismatchMsg 1 0) :=
  (validateDML_characterization 0 [("update", 1)] "update").2.1 1 rfl (by decide)

/-! ### Claim C5: empty expected-rows block -/

/-- C5 (counterexample): the claim says the select validator fails closed
on an empty expectedRows even when the actual rows are also empty; in
fact with both sequences empty it passes. -/
theorem validateSelect_empty_empty_passes :
    validateSelectResult [] [] = (true, "assertion passed") := rfl

/-- C5 (amended): with an empty expectedRows the validator fails (with the
row-count message) exactly when the actual row sequence is non-empty, and
passes when it is empty as well; the fail-closed guarantee for select
operations with an empty expected block is enforced upstream, by
Definition.Validate rejecting any definition containing one. -/
theorem emptyExpected_validator_and_upstream :
    (∀ actual : List Row, actual ≠ [] →
      validateSelectResult actual [] = (false, rowCountMsg 0 actual.length)) ∧
    validateSelectResult [] [] = (true, "assertion passed") ∧
    (∀ (d : Definition) (op : Operation), op ∈ d.operations → op.type = TypeSelect →
      op.expected = [] → ∃ m, d.Validate = .error m) := by
  refine ⟨?_, rfl, ?_⟩
  · intro actual h
    have hlen : actual.length ≠ 0 := by
      intro hcon
      exact h (List.length_eq_zero.1 hcon)
    rw [validateSelectResult, if_pos (by simpa using hlen)]
    rfl
  · intro d op hm ht he
    cases h : d.Validate with
    | error m => exact ⟨m, rfl⟩
    | ok res =>
      exfalso
      rw [Definition.Validate] at h
      split at h
      · exact absurd h (by simp)
      · exact validateLoop_no_bad_select d.operations _ 0 res h op hm ⟨ht, he⟩

/-- Witness for C5 (amended), on a one-row actual list and on a concrete
definition carrying a select with an empty expected block. -/
theorem emptyExpected_validator_and_upstream_witness :
    validateSelectResult [[("id", Value.vint 1)]] [] = (false, rowCountMsg 0 1) ∧
    ∃ m, emptySelectDef.Validate = .error m :=
  ⟨emptyExpected_validator_and_upstream.1 [[("id", Value.vint 1)]] (by decide),
   emptyExpected_validator_and_upstream.2.2 emptySelectDef emptySelectOp
     (by decide) rfl rfl⟩

/-! ### Claim C6: the select validator -/

/-- C6: validateSelectResult fails with the row-count message when the
lengths differ; with equal lengths it passes (with message
"assertion passed") exactly when, position by position, every column
declared in expected row i is present and comparator-equal in actual row i
(extra actual columns are ignored); and when it fails with equal lengths,
its message is a missing-column or value-mismatch message naming an
offending row index, column, and (for mismatches) the expected and actual
values.  The subset-check scenario of the spec is included concretely. -/
theorem validateSelect_characterization (actual expected : List Row) :
    (actual.length ≠ expected.length →
      validateSelectResult actual expected = (false, rowCountMsg expected.length actual.length)) ∧
    (actual.length = expected.length →
      ((validateSelectResult actual expected).1 = true ↔ allRowsMatch actual expected)) ∧
    (actual.length = expected.length → (validateSelectResult actual expected).1 = true →
      (validateSelectResult actual expected).2 = "assertion passed") ∧
    (actual.length = expected.length → (validateSelectResult actual expected).1 = false →
      ∃ i, i < expected.length ∧ ∃ kv ∈ expected.getD i ([] : Row),
        ((lookupRow (actual.getD i []) kv.1 = none ∧
           (validateSelectResult actual expected).2 = missingColMsg kv.1 i) ∨
         (∃ av, lookupRow (actual.getD i []) kv.1 = some av ∧ compareValues av kv.2 = false ∧
           (validateSelectResult actual expected).2 = valueMismatchMsg i kv.1 kv.2 av))) ∧
    validateSelectResult
      [[("id", Value.vint 1), ("name", Value.vstr "Alice"), ("email", Value.vstr "a@x.com")]]
      [[("id", Value.vint 1), ("name", Value.vstr "Alice")]] = (true, "assertion passed") := by
  refine ⟨?_, ?_, ?_, ?_, by decide⟩
  · intro h
    rw [validateSelectResult, if_pos h]
  · intro h
    have hle : 0 + expected.length ≤ actual.length := by omega
    cases hrf : rowsFailure actual 0 expected with
    | none =>
      simp only [validateSelectResult, if_neg (by omega : ¬actual.length ≠ expected.length), hrf]
      have hiff := (rowsFailure_none_iff actual expected 0 hle).1 hrf
      constructor
      · intro _
        intro i hi
        have := hiff i hi
        rw [Nat.zero_add] at this
        exact (rowFailure_none_iff i (actual.getD i []) (expected.getD i [])).1 this
      · intro _; trivial
    | some m =>
      simp only [validateSelectResult, if_neg (by omega : ¬actual.length ≠ expected.length), hrf]
      constructor
      · intro hcon
        exact absurd hcon (by simp)
      · intro hall
        have : rowsFailure actual 0 expected = none := by
          rw [rowsFailure_none_iff actual expected 0 hle]
          intro i hi
          rw [Nat.zero_add]
          exact (rowFailure_none_iff i (actual.getD i []) (expected.getD i [])).2 (hall i hi)
        rw [this] at hrf
        exact absurd hrf (by simp)
  · intro h hpass
    cases hrf : rowsFailure actual 0 expected with
    | none =>
      simp only [validateSelectResult, if_neg (by omega : ¬actual.length ≠ expected.length), hrf]
    | some m =>
      rw [validateSelectResult, if_neg (by omega : ¬actual.length ≠ expected.length)] at hpass
      rw [hrf] at hpass
      exact absurd hpass (by simp)
  · intro h hfail
    have hle : 0 + expected.length ≤ actual.length := by omega
    cases hrf : rowsFailure actual 0 expected with
    | none =>
      rw [validateSelectResult, if_neg (by omega : ¬actual.length ≠ expected.length)] at hfail
      rw [hrf] at hfail
      exact absurd hfail (by simp)
    | some m =>
      have hmsg : (validateSelectResult actual expected).2 = m := by
        simp only [validateSelectResult, if_neg (by omega : ¬actual.length ≠ expected.length), hrf]
      rcases rowsFailure_some actual expected 0 m hle hrf with ⟨i, hi, hrow⟩
      rw [Nat.zero_add] at hrow
      rcases rowFailure_some i (actual.getD i []) (expected.getD i []) m hrow with ⟨kv, hkv, hres⟩
      refine ⟨i, hi, kv, hkv, ?_⟩
      rcases hres with ⟨hnone, hm⟩ | ⟨av, hav, hc, hm⟩
      · exact Or.inl ⟨hnone, by rw [hmsg, hm]⟩
      · exact Or.inr ⟨av, hav, hc, by rw [hmsg, hm]⟩

/-- Witness for C6, on a one-row result whose declared column mismatches. -/
theorem validateSelect_characterization_witness :
    (validateSelectResult [[("id", Value.vint 2)]] [[("id", Value.vint 1)]]).1 = true ↔
      allRowsMatch [[("id", Value.vint 2)]] [[("id", Value.vint 1)]] :=
  (validateSelect_characterization [[("id", Value.vint 2)]] [[("id", Value.vint 1)]]).2.1 rfl

/-! ### Claim C3: when executing one operation raises an error -/

theorem executeDML_err_none (o : Oracle) (c : Nat) (op : Operation) :
    (executeDML o c op).2 = none := by
  cases h : o.exec c op.sql <;> simp [executeDML, h]

/-- C3 (counterexample): the claim says executing an operation raises an
error only for an unsupported type.  A select whose assertion fails is a
counterexample: the type is supported, yet executeOperation returns a
non-nil error together with the pass-false report. -/
theorem selectAssert_raises :
    raisesError (executeOperation emptyQueryOracle 0 selectOp).1 = true ∧
    selectOp.type ∈ AllowedTypes := by
  constructor
  · rfl
  · decide

/-- C3 (amended): executing one operation returns a non-nil error exactly
when the type is unsupported, or the operation is a select whose query
succeeded and whose validation failed (the error "assertion failed" is
returned together with the pass-false report).  Port failures are never
propagated: a failed query or exec becomes a pass-false report with nil
result and a describing message, and no error; and DML operations never
return an error once dispatched. -/
theorem executeOperation_error_characterization (o : Oracle) (c : Nat) (op : Operation) :
    (raisesError (executeOperation o c op).1 = true ↔
      (op.type ∉ AllowedTypes ∨
        (op.type = TypeSelect ∧ ∃ rows, o.query c op.sql = .ok rows ∧
          (validateSelectResult rows op.expected).1 = false))) ∧
    (op.type = TypeSelect → ∀ m, o.query c op.sql = .error m →
      (executeOperation o c op).1 = .produced (queryFailReport op m) none) ∧
    ((op.type = TypeInsert ∨ op.type = TypeUpdate ∨ op.type = TypeDelete) →
      ∀ m, o.exec c op.sql = .error m →
      (executeOperation o c op).1 = .produced (execFailReport op m) none) ∧
    ((op.type = TypeInsert ∨ op.type = TypeUpdate ∨ op.type = TypeDelete) →
      raisesError (executeOperation o c op).1 = false) := by
  refine ⟨?_, ?_, ?_, ?_⟩
  · by_cases hmem : op.type ∈ AllowedTypes
    · rw [executeOperation_supported o c op hmem]
      rcases mem_allowed_iff.1 hmem with hs | hd
      · rw [raisesError]
        rw [opErr, if_pos hs]
        cases hq : o.query c op.sql with
        | error m =>
          simp only [executeSelect, hq]
          constructor
          · intro hcon; simp at hcon
          · intro hcon
            rcases hcon with hcon | ⟨_, rows, hrows, _⟩
            · exact absurd hmem hcon
            · simp at hrows
        | ok rows =>
          simp only [executeSelect, hq]
          by_cases hv : (validateSelectResult rows op.expected).1
          · rw [if_pos hv]
            constructor
            · intro hcon; simp at hcon
            · intro hcon
              rcases hcon with hcon | ⟨_, rows2, hrows2, hv2⟩
              · exact absurd hmem hcon
              · have : rows2 = rows := by simpa using hrows2.symm
                rw [this] at hv2
                rw [hv2] at hv
                exact absurd hv (by simp)
          · rw [if_neg hv]
            constructor
            · intro _
              exact Or.inr ⟨hs, rows, rfl, by simpa using hv⟩
            · intro _; rfl
      · rw [raisesError]
        rw [opErr, if_neg (dml_type_ne_select hd), executeDML_err_none o c op]
        constructor
        · intro hcon; simp at hcon
        · intro hcon
          rcases hcon with hcon | ⟨hsel, _⟩
          · exact absurd hmem hcon
          · exact absurd hsel (dml_type_ne_select hd)
    · rw [executeOperation_unsupported o c op hmem]
      constructor
      · intro _
        exact Or.inl hmem
      · intro _; rfl
  · intro hs m hq
    rw [executeOperation_select o c op hs]
    simp [executeSelect, hq]
  · intro hd m hq
    rw [executeOperation_dml o c op hd]
    simp [executeDML, hq]
  · intro hd
    rw [executeOperation_dml o c op hd]
    rw [raisesError, executeDML_err_none o c op]
    rfl

/-- Witness for C3 (amended), at a delete whose statement fails at the
port: the result is the pass-false execution-failed report and no raised
error. -/
theorem executeOperation_error_characterization_witness :
    (executeOperation
        { beginRes := none, query := fun _ _ => .ok [],
          exec := fun _ _ => .error "syntax error", commitRes := none } 0
        { id := "d1", description := "", type := TypeDelete, sql := "DELETE FROM t",
          expected := [], expectedChanges := [("delete", 1)] }).1 =
      .produced
        (execFailReport
          { id := "d1", description := "", type := TypeDelete, sql := "DELETE FROM t",
            expected := [], expectedChanges := [("delete", 1)] } "syntax error") none :=
  (executeOperation_error_characterization _ 0 _).2.2.1 (by decide) "syntax error" rfl

/-! ### Counting helpers over run traces -/

theorem isTxPort_not_begin {e : Event} (h : isTxPort e = true) :
    isBeginEvent e = false := by
  cases e
  case beginTx b => exact Bool.noConfusion h
  all_goals rfl

theorem isTxPort_not_rollback {e : Event} (h : isTxPort e = true) :
    isRollbackEvent e = false := by
  cases e
  case rollbackTx => exact Bool.noConfusion h
  all_goals rfl

theorem isTxPort_not_sbegin {e : Event} (h : isTxPort e = true) :
    isSuccessBegin e = false := by
  cases e
  case beginTx b => exact Bool.noConfusion h
  all_goals rfl

theorem isTxPort_ne_commit {e : Event} (h : isTxPort e = true) (b : Bool) :
    e ≠ Event.commitTx b := by
  cases e
  case commitTx b2 => exact Bool.noConfusion h
  all_goals simp

theorem beginEvents_run (ev tail : List Event)
    (hev : ∀ e ∈ ev, isTxPort e = true ∨ e = Event.rollbackTx)
    (htail : ∀ e ∈ tail, e = Event.rollbackTx ∨ ∃ b, e = Event.commitTx b) :
    beginEvents (Event.beginTx true :: (ev ++ tail)) = 1 := by
  rw [beginEvents, List.countP_cons]
  have h1 : ((ev ++ tail).countP (fun e => isBeginEvent e)) = 0 := by
    rw [List.countP_eq_zero]
    intro e he
    rcases List.mem_append.1 he with he | he
    · rcases hev e he with h | h
      · simp [isTxPort_not_begin h]
      · subst h; simp [isRollbackEvent, isBeginEvent]
    · rcases htail e he with h | ⟨b, h⟩ <;> (subst h; simp [isBeginEvent])
  rw [h1]
  rfl

theorem plan_counts (ev : List Event) (hev : ∀ e ∈ ev, isTxPort e = true) :
    successfulBegins (Event.beginTx true :: (ev ++ [Event.rollbackTx])) =
      rollbackEvents (Event.beginTx true :: (ev ++ [Event.rollbackTx])) := by
  rw [successfulBegins, rollbackEvents, List.countP_cons, List.countP_cons,
    List.countP_append, List.countP_append]
  have h1 : (ev.countP (fun e => isSuccessBegin e)) = 0 := by
    rw [List.countP_eq_zero]
    intro e he
    simp [isTxPort_not_sbegin (hev e he)]
  have h2 : (ev.countP (fun e => isRollbackEvent e)) = 0 := by
    rw [List.countP_eq_zero]
    intro e he
    simp [isTxPort_not_rollback (hev e he)]
  rw [h1, h2]
  rfl

/-! ### Claim C2: plan mode never persists -/

/-- C2: in a plan run commit is never invoked on any transaction; the
number of successfully begun transactions equals the number of rollbacks
(and after a successful begin the trace ends with the rollback), so no
effect of the run persists; and the reports still record the observed
results — a single passing UPDATE yields a pass-true report with the
observed affected count and message "assertion passed". -/
theorem planNeverPersists (o : Oracle) (d : Definition) :
    (∀ b, Event.commitTx b ∉ (planExecute o d).2.2) ∧
    successfulBegins (planExecute o d).2.2 = rollbackEvents (planExecute o d).2.2 ∧
    (o.beginRes = none → (planExecute o d).2.2.getLast? = some Event.rollbackTx) ∧
    (∀ (op : Operation) (n : Int), o.beginRes = none → op.type = TypeUpdate →
      o.exec 0 op.sql = .ok n → lookupChanges op.expectedChanges op.type = some n →
      (planExecute o { version := 1, operations := [op] }).1 =
        [{ id := op.id, description := op.description, type := op.type,
           result := .rcount n, pass := true, message := "assertion passed" }]) := by
  refine ⟨?_, ?_, ?_, ?_⟩
  · intro b hmem
    cases hb : o.beginRes with
    | some msg =>
      rw [planExecute] at hmem
      rw [hb] at hmem
      simp at hmem
    | none =>
      rcases planRun_trace o d.operations 0 with ⟨k, _, _, hev, _⟩
      rw [planExecute, hb] at hmem
      rcases hrun : planRun o 0 d.operations with ⟨rs, er, cc, ev⟩
      rw [hrun] at hmem hev
      simp only at hmem hev
      rcases List.mem_cons.1 hmem with h | h
      · simp at h
      · rcases List.mem_append.1 h with h | h
        · exact absurd rfl (isTxPort_ne_commit (hev _ h) b)
        · simp at h
  · cases hb : o.beginRes with
    | some msg =>
      rw [planExecute, hb]
      rfl
    | none =>
      rcases planRun_trace o d.operations 0 with ⟨k, _, _, hev, _⟩
      rw [planExecute, hb]
      rcases hrun : planRun o 0 d.operations with ⟨rs, er, cc, ev⟩
      rw [hrun] at hev
      simp only at hev ⊢
      exact plan_counts ev hev
  · intro hb
    rw [planExecute, hb]
    rcases hrun : planRun o 0 d.operations with ⟨rs, er, cc, ev⟩
    simp only
    rw [← List.cons_append, List.getLast?_concat]
  · intro op n hb ht hexec hlook
    rw [ht] at hlook
    simp only [TypeUpdate] at hlook
    simp [planExecute, hb, planRun, executeOperation, executeDML, hexec, validateDMLResult,
      hlook, ht, TypeSelect, TypeUpdate, TypeInsert, TypeDelete]

/-- Witness for C2, on the one-update definition against a database whose
update affects one row. -/
theorem planNeverPersists_witness :
    (planExecute okOracle { version := 1, operations := [updateOp] }).1 =
      [{ id := updateOp.id, description := updateOp.description, type := updateOp.type,
         result := .rcount 1, pass := true, message := "assertion passed" }] :=
  (planNeverPersists okOracle updateDef).2.2.2 updateOp 1 rfl rfl rfl rfl

/-! ### Claim C9: commit failure in apply mode -/

/-- C9 (counterexample): the claim says that when every operation passed
but the commit fails, the Reports collected so far are still returned
alongside the error.  They are not: with a single passing update and a
failing commit, apply returns a nil report list with the commit error. -/
theorem commitFail_drops_reports :
    (applyExecute badCommitOracle updateDef).1 = [] ∧
    (applyExecute badCommitOracle updateDef).2.1 = some (.commitFailed "connection lost") ∧
    updateDef.operations.length = 1 := by
  refine ⟨by rfl, by rfl, rfl⟩

/-- C9 (amended): when the apply loop finishes without aborting and Commit
then fails, the commit error is propagated, but the returned report list
is empty — the collected reports are dropped rather than returned. -/
theorem commitFail_propagates_error (o : Oracle) (d : Definition) (m : String)
    (hb : o.beginRes = none) (hc : o.commitRes = some m)
    (hok : (applyRun o 0 d.operations).2.1 = none) :
    (applyExecute o d).1 = [] ∧ (applyExecute o d).2.1 = some (.commitFailed m) := by
  rcases happly : applyRun o 0 d.operations with ⟨rs, er, cc, ev⟩
  rw [happly] at hok
  simp only at hok
  subst hok
  rw [applyExecute, hb]
  rw [happly, hc]
  exact ⟨rfl, rfl⟩

/-- Witness for C9 (amended), at the failing-commit database over the
one-update definition. -/
theorem commitFail_propagates_error_witness :
    (applyExecute badCommitOracle updateDef).1 = [] ∧
    (applyExecute badCommitOracle updateDef).2.1 =
      some (.commitFailed "connection lost") :=
  commitFail_propagates_error badCommitOracle updateDef "connection lost" rfl rfl (by rfl)

/-! ### Claim C10: reports align with a prefix of the operations -/

/-- C10: in both modes the returned report list aligns position by position
with a prefix of the operation list — at most one report per operation, in
declaration order, each report carrying the id, description and type of
the operation at the same index. -/
theorem reportsAlignPrefix (o : Oracle) (d : Definition) :
    ((applyExecute o d).1.length ≤ d.operations.length ∧
      ∀ i, i < (applyExecute o d).1.length →
        ((applyExecute o d).1.getD i default).id = (d.operations.getD i default).id ∧
        ((applyExecute o d).1.getD i default).description =
          (d.operations.getD i default).description ∧
        ((applyExecute o d).1.getD i default).type = (d.operations.getD i default).type) ∧
    ((planExecute o d).1.length ≤ d.operations.length ∧
      ∀ i, i < (planExecute o d).1.length →
        ((planExecute o d).1.getD i default).id = (d.operations.getD i default).id ∧
        ((planExecute o d).1.getD i default).description =
          (d.operations.getD i default).description ∧
        ((planExecute o d).1.getD i default).type = (d.operations.getD i default).type) := by
  constructor
  · cases hb : o.beginRes with
    | some msg => simp [applyExecute, hb]
    | none =>
      have halign := applyRun_align o d.operations 0
      rcases happly : applyRun o 0 d.operations with ⟨rs, er, cc, ev⟩
      rw [happly] at halign
      simp only at halign
      rcases er with _ | e
      · cases hc : o.commitRes with
        | some msg => simp [applyExecute, hb, happly, hc]
        | none =>
          rw [applyExecute, hb, happly, hc]
          exact halign
      · rw [applyExecute, hb, happly]
        exact halign
  · cases hb : o.beginRes with
    | some msg => simp [planExecute, hb]
    | none =>
      have halign := planRun_align o d.operations 0
      rcases hrun : planRun o 0 d.operations with ⟨rs, er, cc, ev⟩
      rw [hrun] at halign
      simp only at halign
      rw [planExecute, hb, hrun]
      exact halign

/-- Witness for C10, on the update-then-select definition against the
all-ok database: the first report carries the update id. -/
theorem reportsAlignPrefix_witness :
    ((applyExecute okOracle mixedDef).1.getD 0 default).id =
      (mixedDef.operations.getD 0 default).id :=
  ((reportsAlignPrefix okOracle mixedDef).1.2 0 (by decide)).1

/-! ### Claim C8: one transaction, operations in declaration order -/

theorem portSqls_shape (ev tail : List Event) (htail : ∀ e ∈ tail, portSql e = none) :
    portSqls (Event.beginTx true :: (ev ++ tail)) = portSqls ev := by
  have htail2 : tail.filterMap portSql = [] := List.filterMap_eq_nil_iff.2 htail
  simp [portSqls, List.filterMap_cons, List.filterMap_append, htail2, portSql_beginTx]

theorem trace_shape_props (ev tail : List Event) (ops : List Operation) (k : Nat)
    (_hk : k ≤ ops.length)
    (hev : ∀ e ∈ ev, isTxPort e = true ∨ e = Event.rollbackTx)
    (htail : ∀ e ∈ tail, e = Event.rollbackTx ∨ ∃ b, e = Event.commitTx b)
    (hsql : portSqls ev = (ops.take k).map Operation.sql) :
    (Event.beginTx true :: (ev ++ tail)).head? = some (Event.beginTx true) ∧
    beginEvents (Event.beginTx true :: (ev ++ tail)) = 1 ∧
    (∀ e ∈ Event.beginTx true :: (ev ++ tail), portSql e ≠ none → isTxPort e = true) ∧
    isSqlPrefixOf (portSqls (Event.beginTx true :: (ev ++ tail))) (ops.map Operation.sql) := by
  refine ⟨rfl, beginEvents_run ev tail hev htail, ?_, ?_⟩
  · intro e he hport
    rcases List.mem_cons.1 he with h | h
    · subst h; exact absurd rfl hport
    · rcases List.mem_append.1 h with h | h
      · rcases hev e h with h2 | h2
        · exact h2
        · subst h2; exact absurd rfl hport
      · rcases htail e h with h2 | ⟨b, h2⟩ <;> (subst h2; exact absurd rfl hport)
  · have htail2 : ∀ e ∈ tail, portSql e = none := by
      intro e he
      rcases htail e he with h | ⟨b, h⟩ <;> (subst h; rfl)
    rw [portSqls_shape ev tail htail2, hsql]
    exact ⟨(ops.drop k).map Operation.sql, by rw [← List.map_append, List.take_append_drop]⟩

/-- C8: in both modes, after a successful begin the trace of the run starts with
the single BeginTransaction event and begins no other transaction; every
port call of the run is transaction-scoped (none runs on the root
connection); and the port calls issue the SQL texts of the operations strictly
in declaration order through that one transaction — a prefix of the
declared list, and exactly the declared list when the run returns no
error, so the SQL effects of operation k precede operation k+1 in the same
transaction. -/
theorem singleTransactionInOrder (o : Oracle) (d : Definition) (hb : o.beginRes = none) :
    ((applyExecute o d).2.2.head? = some (Event.beginTx true) ∧
      beginEvents (applyExecute o d).2.2 = 1 ∧
      (∀ e ∈ (applyExecute o d).2.2, portSql e ≠ none → isTxPort e = true) ∧
      isSqlPrefixOf (portSqls (applyExecute o d).2.2) (d.operations.map Operation.sql) ∧
      ((applyExecute o d).2.1 = none →
        portSqls (applyExecute o d).2.2 = d.operations.map Operation.sql)) ∧
    ((planExecute o d).2.2.head? = some (Event.beginTx true) ∧
      beginEvents (planExecute o d).2.2 = 1 ∧
      (∀ e ∈ (planExecute o d).2.2, portSql e ≠ none → isTxPort e = true) ∧
      isSqlPrefixOf (portSqls (planExecute o d).2.2) (d.operations.map Operation.sql) ∧
      ((planExecute o d).2.1 = none →
        portSqls (planExecute o d).2.2 = d.operations.map Operation.sql)) := by
  constructor
  · rcases applyRun_trace o d.operations 0 with ⟨k, hk, hsql, hmem, hfull⟩
    rcases happly : applyRun o 0 d.operations with ⟨rs, er, cc, ev⟩
    rw [happly] at hsql hmem hfull
    simp only at hsql hmem hfull
    rcases er with _ | e
    · cases hc : o.commitRes with
      | some m =>
        rw [applyExecute, hb, happly, hc]
        simp only
        have hprops := trace_shape_props ev [Event.commitTx false] d.operations k hk hmem
          (by intro e he; right; exact ⟨false, by simpa using he⟩) hsql
        exact ⟨hprops.1, hprops.2.1, hprops.2.2.1, hprops.2.2.2,
          fun hcon => absurd hcon (by simp)⟩
      | none =>
        rw [applyExecute, hb, happly, hc]
        simp only
        have hprops := trace_shape_props ev [Event.commitTx true] d.operations k hk hmem
          (by intro e he; right; exact ⟨true, by simpa using he⟩) hsql
        refine ⟨hprops.1, hprops.2.1, hprops.2.2.1, hprops.2.2.2, fun _ => ?_⟩
        have hev2 := hfull rfl
        subst hev2
        rw [portSqls_shape (opEvents d.operations) [Event.commitTx true] (by intro e he; rw [show e = Event.commitTx true by simpa using he]; rfl)]
        exact portSqls_opEvents d.operations
    · rw [applyExecute, hb, happly]
      simp only
      have hprops := trace_shape_props ev [] d.operations k hk hmem (by intro e he; simp at he)
        (by simpa using hsql)
      rw [List.append_nil] at hprops
      exact ⟨hprops.1, hprops.2.1, hprops.2.2.1, hprops.2.2.2,
        fun hcon => absurd hcon (by simp)⟩
  · rcases planRun_trace o d.operations 0 with ⟨k, hk, hsql, hmem, hfull⟩
    rcases hrun : planRun o 0 d.operations with ⟨rs, er, cc, ev⟩
    rw [hrun] at hsql hmem hfull
    simp only at hsql hmem hfull
    rw [planExecute, hb, hrun]
    simp only
    have hprops := trace_shape_props ev [Event.rollbackTx] d.operations k hk
      (fun e he => Or.inl (hmem e he))
      (by intro e he; left; simpa using he) hsql
    refine ⟨hprops.1, hprops.2.1, hprops.2.2.1, hprops.2.2.2, fun her => ?_⟩
    have hev2 := hfull her
    subst hev2
    rw [portSqls_shape (opEvents d.operations) [Event.rollbackTx] (by intro e he; rw [show e = Event.rollbackTx by simpa using he]; rfl)]
    exact portSqls_opEvents d.operations

/-- Witness for C8: on the update-then-select definition against the
all-ok database, the port calls of the apply run are exactly the two SQL texts
in declaration order. -/
theorem singleTransactionInOrder_witness :
    portSqls (applyExecute okOracle mixedDef).2.2 = mixedDef.operations.map Operation.sql :=
  (singleTransactionInOrder okOracle mixedDef rfl).1.2.2.2.2 (by rfl)

/-! ### Claim C1: apply mode is all-or-nothing -/

theorem getD_take {α : Type} (l : List α) (i k : Nat) (d : α) (h : i < k) :
    (l.take k).getD i d = l.getD i d := by
  rw [List.getD_eq_getElem?_getD, List.getD_eq_getElem?_getD, List.getElem?_take_of_lt h]

theorem commit_not_in_stop (ops : List Operation) (b : Bool) :
    Event.commitTx b ∉ Event.beginTx true :: (opEvents ops ++ [Event.rollbackTx]) := by
  intro hmem
  rcases List.mem_cons.1 hmem with h | h
  · simp at h
  · rcases List.mem_append.1 h with h | h
    · exact absurd rfl ((isTxPort_ne_commit (opEvents_txPort ops _ h) b).symm ∘ Eq.symm)
    · simp at h

/-- C1: in an apply run (begun successfully, over supported operation
types), if the report at index i is the first with pass false, then the
run stops there: the report list has exactly i+1 entries, the trace is the
begin, the port calls for the first i+1 operations in order, and an
immediate rollback, commit is never invoked, and the returned error names
the id of the failing operation and carries its failure message; and commit is
invoked if and only if every produced report has pass true. -/
theorem applyAllOrNothing (o : Oracle) (d : Definition)
    (hb : o.beginRes = none)
    (hsup : ∀ op ∈ d.operations, op.type ∈ AllowedTypes) :
    (∀ i, i < (applyExecute o d).1.length →
      ((applyExecute o d).1.getD i default).pass = false →
      (∀ j, j < i → ((applyExecute o d).1.getD j default).pass = true) →
      (applyExecute o d).1.length = i + 1 ∧
      (applyExecute o d).2.2 =
        Event.beginTx true :: (opEvents (d.operations.take (i + 1)) ++ [Event.rollbackTx]) ∧
      (∀ b, Event.commitTx b ∉ (applyExecute o d).2.2) ∧
      portSqls (applyExecute o d).2.2 = (d.operations.take (i + 1)).map Operation.sql ∧
      (∃ e, (applyExecute o d).2.1 = some e ∧
        RunError.opId? e = some ((applyExecute o d).1.getD i default).id ∧
        (RunError.detail? e = some ((applyExecute o d).1.getD i default).message ∨
         RunError.detail? e =
           some ("assertion failed: " ++ ((applyExecute o d).1.getD i default).message)))) ∧
    ((∃ b, Event.commitTx b ∈ (applyExecute o d).2.2) ↔
      (∀ i, i < (applyExecute o d).1.length →
        ((applyExecute o d).1.getD i default).pass = true)) := by
  by_cases hall : ∀ i, i < d.operations.length →
      (opReport o i (d.operations.getD i default)).pass = true
  · have hrun := applyRun_all_pass o d.operations 0 hsup
      (fun i hi => by simpa using hall i hi)
    cases hc : o.commitRes with
    | some m =>
      rw [applyExecute, hb, hrun, hc]
      simp only
      constructor
      · intro i hi
        simp at hi
      · constructor
        · intro _
          intro i hi
          simp at hi
        · intro _
          exact ⟨false, by simp⟩
    | none =>
      rw [applyExecute, hb, hrun, hc]
      simp only
      have hlen := prefixReports_length o d.operations 0
      constructor
      · intro i hi hfail _
        rw [hlen] at hi
        rw [prefixReports_getD o d.operations 0 i hi, Nat.zero_add] at hfail
        rw [hall i hi] at hfail
        exact absurd hfail (by simp)
      · constructor
        · intro _ i hi
          rw [hlen] at hi
          rw [prefixReports_getD o d.operations 0 i hi, Nat.zero_add]
          exact hall i hi
        · intro _
          exact ⟨true, by simp⟩
  · push_neg at hall
    rcases hall with ⟨i1, hi1, hfail1⟩
    have hex : ∃ i, i < d.operations.length ∧
        (opReport o i (d.operations.getD i default)).pass = false :=
      ⟨i1, hi1, by simpa using hfail1⟩
    have hP := Nat.find_spec hex
    have hprev : ∀ j, j < Nat.find hex →
        (opReport o j (d.operations.getD j default)).pass = true := by
      intro j hj
      have hnP := Nat.find_min hex hj
      have hjlen : j < d.operations.length := lt_trans hj hP.1
      by_contra hcon
      exact hnP ⟨hjlen, by simpa using hcon⟩
    set i0 := Nat.find hex with hi0def
    have hrun := applyRun_stops o d.operations 0 i0 hsup hP.1
      (by simpa using hP.2) (fun j hj => by simpa using hprev j hj)
    rw [applyExecute, hb, hrun]
    simp only
    have hlen : (prefixReports o 0 (d.operations.take (i0 + 1))).length = i0 + 1 := by
      rw [prefixReports_length]
      rw [List.length_take]
      omega
    have hgetD : ∀ i, i < i0 + 1 →
        (prefixReports o 0 (d.operations.take (i0 + 1))).getD i default =
          opReport o i (d.operations.getD i default) := by
      intro i hi
      rw [prefixReports_getD o (d.operations.take (i0 + 1)) 0 i (by rw [List.length_take]; omega),
        Nat.zero_add, getD_take d.operations i (i0 + 1) default hi]
    constructor
    · intro i hi hfail hprevH
      rw [hlen] at hi
      have hii0 : i = i0 := by
        rcases Nat.lt_or_ge i i0 with hlt | hge
        · exfalso
          rw [hgetD i (by omega)] at hfail
          rw [hprev i hlt] at hfail
          exact absurd hfail (by simp)
        · omega
      subst hii0
      refine ⟨hlen, rfl, ?_, ?_, ?_⟩
      · intro b
        exact commit_not_in_stop (d.operations.take (i0 + 1)) b
      · rw [portSqls_shape (opEvents (d.operations.take (i0 + 1))) [Event.rollbackTx]
          (by intro e he; rw [show e = Event.rollbackTx by simpa using he]; rfl)]
        exact portSqls_opEvents (d.operations.take (i0 + 1))
      · rw [hgetD i0 (by omega)]
        have hfields := opReport_fields o i0 (d.operations.getD i0 default)
        rw [Nat.zero_add]
        cases hoe : opErr o i0 (d.operations.getD i0 default) with
        | none =>
          refine ⟨.opFailed (d.operations.getD i0 default).id
            (opReport o i0 (d.operations.getD i0 default)).message, ?_, ?_, ?_⟩
          · rw [applyStopErr, hoe]
          · rw [RunError.opId?, hfields.1]
          · exact Or.inl rfl
        | some e =>
          rcases opErr_some o i0 (d.operations.getD i0 default) e hoe with ⟨he, _⟩
          refine ⟨.opRaised (d.operations.getD i0 default).id e, ?_, ?_, ?_⟩
          · rw [applyStopErr, hoe]
          · rw [RunError.opId?, hfields.1]
          · right
            rw [he, RunError.detail?]
    · constructor
      · intro hcommit
        exfalso
        rcases hcommit with ⟨b, hmem⟩
        exact commit_not_in_stop (d.operations.take (i0 + 1)) b hmem
      · intro hpassall
        exfalso
        have := hpassall i0 (by rw [hlen]; omega)
        rw [hgetD i0 (by omega)] at this
        rw [this] at hP
        simp at hP

/-- Witness for C1, on the one-update definition against a database whose
update affects zero rows: the first report fails and the run stops. -/
theorem applyAllOrNothing_witness :
    (applyExecute zeroExecOracle updateDef).1.length = 0 + 1 ∧
    (applyExecute zeroExecOracle updateDef).2.2 =
      Event.beginTx true ::
        (opEvents (updateDef.operations.take (0 + 1)) ++ [Event.rollbackTx]) ∧
    (∀ b, Event.commitTx b ∉ (applyExecute zeroExecOracle updateDef).2.2) ∧
    portSqls (applyExecute zeroExecOracle updateDef).2.2 =
      (updateDef.operations.take (0 + 1)).map Operation.sql ∧
    (∃ e, (applyExecute zeroExecOracle updateDef).2.1 = some e ∧
      RunError.opId? e =
        some ((applyExecute zeroExecOracle updateDef).1.getD 0 default).id ∧
      (RunError.detail? e =
        some ((applyExecute zeroExecOracle updateDef).1.getD 0 default).message ∨
       RunError.detail? e =
        some ("assertion failed: " ++
          ((applyExecute zeroExecOracle updateDef).1.getD 0 default).message))) :=
  (applyAllOrNothing zeroExecOracle updateDef rfl (by decide)).1 0 (by decide) (by decide)
    (fun j hj => absurd hj (by omega))

end Opsql
